import Mathlib

/-!
# Blosc public interface (`blosc/blosc.h`): constants, container header, filters

A shallow embedding of the declarations of `blosc/blosc.h` and of the parts of
the library the header documents.  Constants keep the names of the C macros.
Bytes are natural numbers below 256 and buffers are lists of bytes.
-/

namespace Blosc

/-! ## Constants of `blosc.h` -/

/-- Macro `#define BLOSC_VERSION_FORMAT 2` -/
def BLOSC_VERSION_FORMAT : Nat := 2

/-- Macro `#define BLOSC_MIN_HEADER_LENGTH 16` -/
def BLOSC_MIN_HEADER_LENGTH : Nat := 16

/-- Macro `#define BLOSC_MAX_OVERHEAD BLOSC_MIN_HEADER_LENGTH` -/
def BLOSC_MAX_OVERHEAD : Nat := BLOSC_MIN_HEADER_LENGTH

/-- Modelled from the spec: `INT_MAX` of `<limits.h>`, which is not part of the
repository; for an `int` of `intBits` bits it is `2^(intBits-1) - 1`. -/
def INT_MAX (intBits : Nat) : Nat := 2 ^ (intBits - 1) - 1

/-- Macro `#define BLOSC_MAX_BUFFERSIZE (INT_MAX - BLOSC_MAX_OVERHEAD)` -/
def BLOSC_MAX_BUFFERSIZE (intBits : Nat) : Nat := INT_MAX intBits - BLOSC_MAX_OVERHEAD

/-- Macro `#define BLOSC_MAX_TYPESIZE 255` -/
def BLOSC_MAX_TYPESIZE : Nat := 255

/-- Macro `#define BLOSC_NOSHUFFLE 0` -/
def BLOSC_NOSHUFFLE : Nat := 0
/-- Macro `#define BLOSC_NOFILTER 0` -/
def BLOSC_NOFILTER : Nat := 0
/-- Macro `#define BLOSC_SHUFFLE 1` -/
def BLOSC_SHUFFLE : Nat := 1
/-- Macro `#define BLOSC_BITSHUFFLE 2` -/
def BLOSC_BITSHUFFLE : Nat := 2
/-- Macro `#define BLOSC_DELTA 3` -/
def BLOSC_DELTA : Nat := 3

/-- Macro `#define BLOSC_MAX_FILTERS 5` -/
def BLOSC_MAX_FILTERS : Nat := 5

/-- Macro `#define BLOSC_DOSHUFFLE 0x1` -/
def BLOSC_DOSHUFFLE : Nat := 0x1
/-- Macro `#define BLOSC_MEMCPYED 0x2` -/
def BLOSC_MEMCPYED : Nat := 0x2
/-- Macro `#define BLOSC_DOBITSHUFFLE 0x4` -/
def BLOSC_DOBITSHUFFLE : Nat := 0x4
/-- Macro `#define BLOSC_FILTER_SCHUNK 0x8` -/
def BLOSC_FILTER_SCHUNK : Nat := 0x8

/-- Macro `#define BLOSC_BLOSCLZ 0` -/
def BLOSC_BLOSCLZ : Nat := 0
/-- Macro `#define BLOSC_LZ4 1` -/
def BLOSC_LZ4 : Nat := 1
/-- Macro `#define BLOSC_LZ4HC 2` -/
def BLOSC_LZ4HC : Nat := 2
/-- Macro `#define BLOSC_SNAPPY 3` -/
def BLOSC_SNAPPY : Nat := 3
/-- Macro `#define BLOSC_ZLIB 4` -/
def BLOSC_ZLIB : Nat := 4
/-- Macro `#define BLOSC_ZSTD 5` -/
def BLOSC_ZSTD : Nat := 5
/-- Macro `#define BLOSC_LZ5 6` -/
def BLOSC_LZ5 : Nat := 6
/-- Macro `#define BLOSC_LZ5HC 7` -/
def BLOSC_LZ5HC : Nat := 7

/-- Macro `#define BLOSC_BLOSCLZ_COMPNAME "blosclz"` -/
def BLOSC_BLOSCLZ_COMPNAME : String := "blosclz"
/-- Macro `#define BLOSC_LZ4_COMPNAME "lz4"` -/
def BLOSC_LZ4_COMPNAME : String := "lz4"
/-- Macro `#define BLOSC_LZ4HC_COMPNAME "lz4hc"` -/
def BLOSC_LZ4HC_COMPNAME : String := "lz4hc"
/-- Macro `#define BLOSC_SNAPPY_COMPNAME "snappy"` -/
def BLOSC_SNAPPY_COMPNAME : String := "snappy"
/-- Macro `#define BLOSC_ZLIB_COMPNAME "zlib"` -/
def BLOSC_ZLIB_COMPNAME : String := "zlib"
/-- Macro `#define BLOSC_ZSTD_COMPNAME "zstd"` -/
def BLOSC_ZSTD_COMPNAME : String := "zstd"
/-- Macro `#define BLOSC_LZ5_COMPNAME "lz5"` -/
def BLOSC_LZ5_COMPNAME : String := "lz5"
/-- Macro `#define BLOSC_LZ5HC_COMPNAME "lz5hc"` -/
def BLOSC_LZ5HC_COMPNAME : String := "lz5hc"

/-- Macro `#define BLOSC_BLOSCLZ_LIB 0` -/
def BLOSC_BLOSCLZ_LIB : Nat := 0
/-- Macro `#define BLOSC_LZ4_LIB 1` -/
def BLOSC_LZ4_LIB : Nat := 1
/-- Macro `#define BLOSC_SNAPPY_LIB 2` -/
def BLOSC_SNAPPY_LIB : Nat := 2
/-- Macro `#define BLOSC_ZLIB_LIB 3` -/
def BLOSC_ZLIB_LIB : Nat := 3
/-- Macro `#define BLOSC_ZSTD_LIB 4` -/
def BLOSC_ZSTD_LIB : Nat := 4
/-- Macro `#define BLOSC_LZ5_LIB 5` -/
def BLOSC_LZ5_LIB : Nat := 5
/-- Macro `#define BLOSC_SCHUNK_LIB 7` (compressor library in super-chunk header) -/
def BLOSC_SCHUNK_LIB : Nat := 7

/-- Macro `#define BLOSC_BLOSCLZ_FORMAT BLOSC_BLOSCLZ_LIB` -/
def BLOSC_BLOSCLZ_FORMAT : Nat := BLOSC_BLOSCLZ_LIB
/-- Macro `#define BLOSC_LZ4_FORMAT BLOSC_LZ4_LIB` -/
def BLOSC_LZ4_FORMAT : Nat := BLOSC_LZ4_LIB
/-- Macro `#define BLOSC_LZ4HC_FORMAT BLOSC_LZ4_LIB` (LZ4HC and LZ4 share the same format) -/
def BLOSC_LZ4HC_FORMAT : Nat := BLOSC_LZ4_LIB
/-- Macro `#define BLOSC_SNAPPY_FORMAT BLOSC_SNAPPY_LIB` -/
def BLOSC_SNAPPY_FORMAT : Nat := BLOSC_SNAPPY_LIB
/-- Macro `#define BLOSC_ZLIB_FORMAT BLOSC_ZLIB_LIB` -/
def BLOSC_ZLIB_FORMAT : Nat := BLOSC_ZLIB_LIB
/-- Macro `#define BLOSC_ZSTD_FORMAT BLOSC_ZSTD_LIB` -/
def BLOSC_ZSTD_FORMAT : Nat := BLOSC_ZSTD_LIB
/-- Macro `#define BLOSC_LZ5_FORMAT BLOSC_LZ5_LIB` -/
def BLOSC_LZ5_FORMAT : Nat := BLOSC_LZ5_LIB
/-- Macro `#define BLOSC_LZ5HC_FORMAT BLOSC_LZ5_LIB` (LZ5HC and LZ5 share the same format) -/
def BLOSC_LZ5HC_FORMAT : Nat := BLOSC_LZ5_LIB

/-- Macro `#define BLOSC_HEADER_PACKED_LENGTH 96` -/
def BLOSC_HEADER_PACKED_LENGTH : Nat := 96

/-! ## Compressor tables -/

/-- Modelled from the spec: `blosc_compcode_to_compname` of `blosc.c`, which is
not among the sources; `blosc.h` documents it: "Get the `compname` associated
with the `compcode`.  If the compressor code is not recognized, or there is not
support for it in this build, -1 is returned.  Else, the compressor code is
returned."  `supported c` tells whether the build has support for the compressor
with code `c`.  The first component is the return value, the second the name
stored in `*compname` (the name of the table for a recognised code, no name for
any other code). -/
def blosc_compcode_to_compname (supported : Nat → Bool) (compcode : Int) :
    Int × Option String :=
  let name : Option String :=
    if compcode = BLOSC_BLOSCLZ then some BLOSC_BLOSCLZ_COMPNAME
    else if compcode = BLOSC_LZ4 then some BLOSC_LZ4_COMPNAME
    else if compcode = BLOSC_LZ4HC then some BLOSC_LZ4HC_COMPNAME
    else if compcode = BLOSC_SNAPPY then some BLOSC_SNAPPY_COMPNAME
    else if compcode = BLOSC_ZLIB then some BLOSC_ZLIB_COMPNAME
    else if compcode = BLOSC_ZSTD then some BLOSC_ZSTD_COMPNAME
    else if compcode = BLOSC_LZ5 then some BLOSC_LZ5_COMPNAME
    else if compcode = BLOSC_LZ5HC then some BLOSC_LZ5HC_COMPNAME
    else none
  let code : Int :=
    if compcode = BLOSC_BLOSCLZ ∧ supported BLOSC_BLOSCLZ = true then BLOSC_BLOSCLZ
    else if compcode = BLOSC_LZ4 ∧ supported BLOSC_LZ4 = true then BLOSC_LZ4
    else if compcode = BLOSC_LZ4HC ∧ supported BLOSC_LZ4HC = true then BLOSC_LZ4HC
    else if compcode = BLOSC_SNAPPY ∧ supported BLOSC_SNAPPY = true then BLOSC_SNAPPY
    else if compcode = BLOSC_ZLIB ∧ supported BLOSC_ZLIB = true then BLOSC_ZLIB
    else if compcode = BLOSC_ZSTD ∧ supported BLOSC_ZSTD = true then BLOSC_ZSTD
    else if compcode = BLOSC_LZ5 ∧ supported BLOSC_LZ5 = true then BLOSC_LZ5
    else if compcode = BLOSC_LZ5HC ∧ supported BLOSC_LZ5HC = true then BLOSC_LZ5HC
    else -1
  (code, name)

/-- Modelled from the spec: `blosc_compname_to_compcode` of `blosc.c`, which is
not among the sources; `blosc.h` documents it: "Return the compressor code
associated with the compressor name.  If the compressor name is not recognized,
or there is not support for it in this build, -1 is returned instead."
`supported c` tells whether the build has support for the compressor with code
`c`.  Names are compared as whole strings, as `strcmp` does. -/
def blosc_compname_to_compcode (supported : Nat → Bool) (compname : String) : Int :=
  if compname = BLOSC_BLOSCLZ_COMPNAME ∧ supported BLOSC_BLOSCLZ = true then BLOSC_BLOSCLZ
  else if compname = BLOSC_LZ4_COMPNAME ∧ supported BLOSC_LZ4 = true then BLOSC_LZ4
  else if compname = BLOSC_LZ4HC_COMPNAME ∧ supported BLOSC_LZ4HC = true then BLOSC_LZ4HC
  else if compname = BLOSC_SNAPPY_COMPNAME ∧ supported BLOSC_SNAPPY = true then BLOSC_SNAPPY
  else if compname = BLOSC_ZLIB_COMPNAME ∧ supported BLOSC_ZLIB = true then BLOSC_ZLIB
  else if compname = BLOSC_ZSTD_COMPNAME ∧ supported BLOSC_ZSTD = true then BLOSC_ZSTD
  else if compname = BLOSC_LZ5_COMPNAME ∧ supported BLOSC_LZ5 = true then BLOSC_LZ5
  else if compname = BLOSC_LZ5HC_COMPNAME ∧ supported BLOSC_LZ5HC = true then BLOSC_LZ5HC
  else -1

/-- A build with support for all eight compressors. -/
def build_all : Nat → Bool := fun _ => true

/-- A build without Snappy: every compressor but `BLOSC_SNAPPY` is supported. -/
def build_without_snappy : Nat → Bool := fun c => c != BLOSC_SNAPPY

/-- The compressor codes of `blosc.h`, in the order the header declares them. -/
def compcodes : List Nat :=
  [BLOSC_BLOSCLZ, BLOSC_LZ4, BLOSC_LZ4HC, BLOSC_SNAPPY, BLOSC_ZLIB, BLOSC_ZSTD,
   BLOSC_LZ5, BLOSC_LZ5HC]

/-- The compressor names of `blosc.h`, in the order the header declares them. -/
def compnames : List String :=
  [BLOSC_BLOSCLZ_COMPNAME, BLOSC_LZ4_COMPNAME, BLOSC_LZ4HC_COMPNAME,
   BLOSC_SNAPPY_COMPNAME, BLOSC_ZLIB_COMPNAME, BLOSC_ZSTD_COMPNAME,
   BLOSC_LZ5_COMPNAME, BLOSC_LZ5HC_COMPNAME]

/-- The `*_FORMAT` macro `blosc.h` declares for the compressor `BLOSC_X`
(`BLOSC_X_FORMAT`); `none` for a code that is no compressor. -/
def compcode_to_format (compcode : Nat) : Option Nat :=
  if compcode = BLOSC_BLOSCLZ then some BLOSC_BLOSCLZ_FORMAT
  else if compcode = BLOSC_LZ4 then some BLOSC_LZ4_FORMAT
  else if compcode = BLOSC_LZ4HC then some BLOSC_LZ4HC_FORMAT
  else if compcode = BLOSC_SNAPPY then some BLOSC_SNAPPY_FORMAT
  else if compcode = BLOSC_ZLIB then some BLOSC_ZLIB_FORMAT
  else if compcode = BLOSC_ZSTD then some BLOSC_ZSTD_FORMAT
  else if compcode = BLOSC_LZ5 then some BLOSC_LZ5_FORMAT
  else if compcode = BLOSC_LZ5HC then some BLOSC_LZ5HC_FORMAT
  else none

/-- The library that implements each compressor, by its `*_LIB` code: LZ4HC is
part of the LZ4 library and LZ5HC of the LZ5 library (the comments of `blosc.h`
on `BLOSC_LZ4HC_FORMAT` and `BLOSC_LZ5HC_FORMAT`), every other compressor has
the library of its own name. -/
def compcode_to_lib (compcode : Nat) : Option Nat :=
  if compcode = BLOSC_BLOSCLZ then some BLOSC_BLOSCLZ_LIB
  else if compcode = BLOSC_LZ4 ∨ compcode = BLOSC_LZ4HC then some BLOSC_LZ4_LIB
  else if compcode = BLOSC_SNAPPY then some BLOSC_SNAPPY_LIB
  else if compcode = BLOSC_ZLIB then some BLOSC_ZLIB_LIB
  else if compcode = BLOSC_ZSTD then some BLOSC_ZSTD_LIB
  else if compcode = BLOSC_LZ5 ∨ compcode = BLOSC_LZ5HC then some BLOSC_LZ5_LIB
  else none

/-- The codes of the compression libraries shipped with Blosc (`*_LIB`, without
the reserved `BLOSC_SCHUNK_LIB`), in the order the header declares them. -/
def libcodes : List Nat :=
  [BLOSC_BLOSCLZ_LIB, BLOSC_LZ4_LIB, BLOSC_SNAPPY_LIB, BLOSC_ZLIB_LIB, BLOSC_ZSTD_LIB,
   BLOSC_LZ5_LIB]

/-- The format codes of the compressors shipped with Blosc (`*_FORMAT`), in the
order the header declares them. -/
def formatcodes : List Nat :=
  [BLOSC_BLOSCLZ_FORMAT, BLOSC_LZ4_FORMAT, BLOSC_LZ4HC_FORMAT, BLOSC_SNAPPY_FORMAT,
   BLOSC_ZLIB_FORMAT, BLOSC_ZSTD_FORMAT, BLOSC_LZ5_FORMAT, BLOSC_LZ5HC_FORMAT]

/-! ## Header flags -/

/-- The test `flags & mask` of C, as `blosc.h` describes it for
`blosc_cbuffer_metainfo` ("`flags & BLOSC_DOSHUFFLE` says whether the buffer is
byte-shuffled or not"): true when the conjunction is not zero. -/
def flag_test (flags mask : Nat) : Bool := (flags &&& mask) != 0

/-- The four flag masks of `blosc.h`, each with the bit the header gives it. -/
def flag_masks : List (Nat × Nat) :=
  [(BLOSC_DOSHUFFLE, 0), (BLOSC_MEMCPYED, 1), (BLOSC_DOBITSHUFFLE, 2), (BLOSC_FILTER_SCHUNK, 3)]

/-- A flags byte with the bits of `mask` set: `flags | mask`. -/
def flag_set (flags mask : Nat) : Nat := flags ||| mask

/-- A flags byte with the bits of `mask` cleared: `flags & ~mask` on a byte. -/
def flag_clear (flags mask : Nat) : Nat := flags &&& (255 ^^^ mask)

/-! ## The super-chunk header `schunk_header` -/

/-- The C types of the fields of `schunk_header`. -/
inductive CType where
  | uint8
  | uint16
  | uint32
  | int64
  | pointer
  deriving DecidableEq

/-- Size in bytes of a value of each type; `ptrSize` is the size of a pointer on
the target. -/
def CType.sizeof (ptrSize : Nat) : CType → Nat
  | .uint8 => 1
  | .uint16 => 2
  | .uint32 => 4
  | .int64 => 8
  | .pointer => ptrSize

/-- Natural alignment: a scalar is aligned to its own size. -/
def CType.alignof (ptrSize : Nat) (t : CType) : Nat := t.sizeof ptrSize

/-- The fields of `typedef struct { ... } schunk_header;` in declaration order. -/
def schunk_header_fields : List (String × CType) :=
  [("version", .uint8), ("flags1", .uint8), ("flags2", .uint8), ("flags3", .uint8),
   ("compressor", .uint16), ("clevel", .uint16), ("filters", .uint16),
   ("filters_meta", .uint16),
   ("chunksize", .uint32),
   ("nchunks", .int64), ("nbytes", .int64), ("cbytes", .int64),
   ("filters_chunk", .pointer), ("codec_chunk", .pointer), ("metadata_chunk", .pointer),
   ("userdata_chunk", .pointer), ("data", .pointer), ("ctx", .pointer),
   ("reserved", .pointer)]

/-- The least multiple of `a` that is at least `off`. -/
def alignUp (off a : Nat) : Nat := (off + a - 1) / a * a

/-- Offsets a C compiler gives the fields of a struct under natural alignment:
each field goes to the first multiple of its alignment at or after the end of
the field before it.  Returns the offsets, in order, and the end of the last
field. -/
def structOffsets (ptrSize : Nat) : List CType → Nat → List Nat × Nat
  | [], off => ([], off)
  | t :: ts, off =>
    let o := alignUp off (t.alignof ptrSize)
    let r := structOffsets ptrSize ts (o + t.sizeof ptrSize)
    (o :: r.1, r.2)

/-- Alignment of a struct: the largest alignment among its fields. -/
def structAlign (ptrSize : Nat) (ts : List CType) : Nat :=
  ts.foldl (fun a t => max a (t.alignof ptrSize)) 1

/-- The `sizeof` of a struct: the end of its last field, padded to the alignment of the
struct. -/
def structSizeof (ptrSize : Nat) (ts : List CType) : Nat :=
  alignUp (structOffsets ptrSize ts 0).2 (structAlign ptrSize ts)

/-- Offsets of a packed layout: every field starts where the one before it ends. -/
def packedOffsets (ptrSize : Nat) : List CType → Nat → List Nat
  | [], _ => []
  | t :: ts, off => off :: packedOffsets ptrSize ts (off + t.sizeof ptrSize)

/-- The types of the fields of `schunk_header`, in declaration order. -/
def schunk_header_types : List CType := schunk_header_fields.map Prod.snd

/-! ## The 16-byte header of a compressed buffer -/

/-- Modelled from the spec (ContainerHeader): the fields of the header of a
compressed buffer with their sizes in bytes, in the order they are stored; they
are the values `blosc_cbuffer_versions`, `blosc_cbuffer_metainfo` and
`blosc_cbuffer_sizes` of `blosc.h` return. -/
def header_fields : List (String × Nat) :=
  [("version", 1), ("versionlz", 1), ("flags", 1), ("typesize", 1),
   ("nbytes", 4), ("blocksize", 4), ("cbytes", 4)]

/-- Offsets of the header fields: each field starts where the one before it ends. -/
def header_offsets : List (String × Nat) → Nat → List (String × Nat)
  | [], _ => []
  | (name, size) :: fs, off => (name, off) :: header_offsets fs (off + size)

/-- Modelled from the spec: the little-endian `uint32` stored at byte offset `off`
of `buf` (the spec's header fields are little-endian); `none` when the four bytes
are not all inside the buffer. -/
def read_uint32_le (buf : List Nat) (off : Nat) : Option Nat :=
  if off + 4 ≤ buf.length then
    some (buf.getD off 0 % 256 + buf.getD (off + 1) 0 % 256 * 2 ^ 8
      + buf.getD (off + 2) 0 % 256 * 2 ^ 16 + buf.getD (off + 3) 0 % 256 * 2 ^ 24)
  else none

/-- Modelled from the spec: the four bytes of the `uint32` value `v % 2^32` in
little-endian order. -/
def uint32_le_bytes (v : Nat) : List Nat :=
  [v % 256, v / 2 ^ 8 % 256, v / 2 ^ 16 % 256, v / 2 ^ 24 % 256]

/-- Modelled from the spec: `blosc_cbuffer_sizes` of `blosc.c`, which is not
among the sources.  The spec fixes the header as version, versionlz, flags,
typesize (one byte each) followed by the little-endian `uint32` fields `nbytes`
(bytes 4..7), `blocksize` (bytes 8..11) and `cbytes` (bytes 12..15).  Returns
`(nbytes, cbytes, blocksize)`, the order of the out-parameters in `blosc.h`;
`none` when the buffer does not hold the fields (the C code would read outside
the buffer). -/
def blosc_cbuffer_sizes (cbuffer : List Nat) : Option (Nat × Nat × Nat) :=
  match read_uint32_le cbuffer 4, read_uint32_le cbuffer 8, read_uint32_le cbuffer 12 with
  | some nbytes, some blocksize, some cbytes => some (nbytes, cbytes, blocksize)
  | _, _, _ => none

/-- Modelled from the spec: the 16 header bytes the compressor emits (the spec's
ContainerHeader): version, versionlz, flags, typesize, then `nbytes`,
`blocksize`, `cbytes` as little-endian `uint32`. -/
def header_bytes (version versionlz flags typesize nbytes blocksize cbytes : Nat) : List Nat :=
  [version % 256, versionlz % 256, flags % 256, typesize % 256]
    ++ uint32_le_bytes nbytes ++ uint32_le_bytes blocksize ++ uint32_le_bytes cbytes

/-! ## Byte-shuffle filter -/

/-- Modelled from the spec: the forward byte-shuffle, whose implementation is not
among the sources.  The block is viewed as `nelem = blocksize / typesize`
elements of `typesize` bytes; the output is the transpose: all first bytes of
every element, then all second bytes, ..., then all `typesize`-th bytes; the
trailing `blocksize % typesize` bytes are appended unshuffled. -/
def shuffle (typesize : Nat) (src : List Nat) : List Nat :=
  let nelem := src.length / typesize
  (List.range typesize).flatMap
      (fun j => (List.range nelem).map (fun i => src.getD (i * typesize + j) 0))
    ++ src.drop (nelem * typesize)

/-- Modelled from the spec: the inverse byte-shuffle, whose implementation is not
among the sources: it reverses the transpose (byte `j` of element `i` is read
from position `j * nelem + i`) and copies the trailing `blocksize % typesize`
bytes. -/
def unshuffle (typesize : Nat) (src : List Nat) : List Nat :=
  let nelem := src.length / typesize
  (List.range nelem).flatMap
      (fun i => (List.range typesize).map (fun j => src.getD (j * nelem + i) 0))
    ++ src.drop (nelem * typesize)

/-! ## Layout of the compressed stream and the return value of `blosc_compress` -/

/-- The filter codes of `blosc.h` (`BLOSC_NOFILTER`, `BLOSC_SHUFFLE`,
`BLOSC_BITSHUFFLE`, `BLOSC_DELTA`), in the order the header declares them. -/
def filter_codes : List Nat := [BLOSC_NOFILTER, BLOSC_SHUFFLE, BLOSC_BITSHUFFLE, BLOSC_DELTA]

/-- The fields of `typedef struct { ... } schunk_params;` in declaration order,
each with its element type and its number of elements (1 for a scalar,
`BLOSC_MAX_FILTERS` for the array `filters`). -/
def schunk_params_fields : List (String × CType × Nat) :=
  [("compressor", .uint8, 1), ("clevel", .uint8, 1),
   ("filters", .uint8, BLOSC_MAX_FILTERS), ("filters_meta", .uint16, 1)]

/-- Modelled from the spec: the packing of the filter pipeline into the `uint16`
field `schunk_header.filters`, whose code is not among the sources; `blosc.h`
fixes the format in the comment of the field ("The (sequence of) filters.  3-bit
per filter.").  The `BLOSC_MAX_FILTERS` entries of `schunk_params.filters`
(`uint8_t` each) are added in at 3 bits per filter, the first filter in the
lowest bits, in `uint16` arithmetic. -/
def encode_filters (filters : List Nat) : Nat :=
  (List.range BLOSC_MAX_FILTERS).foldl
    (fun enc_filters i => (enc_filters + ((filters.getD i 0 % 256) <<< (i * 3))) % 2 ^ 16) 0

/-- Modelled from the spec: the reading of the `uint16` field
`schunk_header.filters` back into `BLOSC_MAX_FILTERS` filter codes, 3 bits at a
time from the lowest bits; its code is not among the sources. -/
def decode_filters (enc_filters : Nat) : List Nat :=
  (List.range BLOSC_MAX_FILTERS).map (fun i => (enc_filters >>> (i * 3)) &&& 7)

/-! # Theorems -/

/-- C5. `BLOSC_MAX_BUFFERSIZE` is `INT_MAX - 16`, which is 2147483631 for a 32-bit
`int`; for every `nbytes` up to it the worst-case compressed size
`nbytes + BLOSC_MAX_OVERHEAD` is at most `INT_MAX` (so it is an `int` and a
`uint32`), and `BLOSC_MAX_BUFFERSIZE + 1` is the least size for which that fails. -/
theorem max_buffersize_no_overflow :
    BLOSC_MAX_BUFFERSIZE 32 = INT_MAX 32 - 16 ∧
    BLOSC_MAX_BUFFERSIZE 32 = 2147483631 ∧
    (∀ nbytes, nbytes ≤ BLOSC_MAX_BUFFERSIZE 32 →
      nbytes + BLOSC_MAX_OVERHEAD ≤ INT_MAX 32 ∧ nbytes + BLOSC_MAX_OVERHEAD < 2 ^ 32) ∧
    ¬ (BLOSC_MAX_BUFFERSIZE 32 + 1 + BLOSC_MAX_OVERHEAD ≤ INT_MAX 32) ∧
    (∀ nbytes, ¬ (nbytes + BLOSC_MAX_OVERHEAD ≤ INT_MAX 32) →
      BLOSC_MAX_BUFFERSIZE 32 + 1 ≤ nbytes) := by
  have h1 : BLOSC_MAX_BUFFERSIZE 32 = 2147483631 := by decide
  have h2 : INT_MAX 32 = 2147483647 := by decide
  have h3 : BLOSC_MAX_OVERHEAD = 16 := rfl
  rw [h1, h2, h3]
  refine ⟨by norm_num, rfl, ?_, by norm_num, ?_⟩
  · intro nbytes h
    omega
  · intro nbytes h
    omega

/-- The test of a single-bit mask reads that bit. -/
theorem flag_test_two_pow (f i : Nat) : flag_test f (2 ^ i) = f.testBit i := by
  unfold flag_test
  rw [Nat.and_two_pow]
  have hpos : 0 < 2 ^ i := Nat.two_pow_pos i
  cases h : f.testBit i
  · simp
  · simp [Nat.pos_iff_ne_zero.mp hpos]

/-- Setting another bit does not change the test of bit `i`. -/
theorem flag_test_set_other (f i j : Nat) (h : i ≠ j) :
    flag_test (flag_set f (2 ^ j)) (2 ^ i) = flag_test f (2 ^ i) := by
  rw [flag_test_two_pow, flag_test_two_pow, flag_set, Nat.testBit_or, Nat.testBit_two_pow]
  have : decide (j = i) = false := by simp [Ne.symm h]
  simp [this]

/-- Clearing another of the low eight bits does not change the test of bit `i < 8`. -/
theorem flag_test_clear_other (f i j : Nat) (h : i ≠ j) (hi : i < 8) :
    flag_test (flag_clear f (2 ^ j)) (2 ^ i) = flag_test f (2 ^ i) := by
  rw [flag_test_two_pow, flag_test_two_pow, flag_clear, Nat.testBit_and, Nat.testBit_xor,
    Nat.testBit_two_pow]
  have h255 : Nat.testBit 255 i = true := by
    interval_cases i <;> decide
  have : decide (j = i) = false := by simp [Ne.symm h]
  simp [this, h255]

/-- The two conversions at a code the build supports. -/
theorem compcode_compname_supported (supported : Nat → Bool) (c : Nat) (hc : c ≤ 7)
    (hs : supported c = true) :
    (blosc_compcode_to_compname supported (c : Nat)).1 = (c : Nat) ∧
    (compnames[c]?).map (blosc_compname_to_compcode supported) = some ((c : Nat) : Int) ∧
    (compnames[c]?).map (fun name => blosc_compcode_to_compname supported
        (blosc_compname_to_compcode supported name)) = some (((c : Nat) : Int), compnames[c]?)
    := by
  interval_cases c <;>
    simp [blosc_compcode_to_compname, blosc_compname_to_compcode, compnames,
      BLOSC_BLOSCLZ, BLOSC_LZ4, BLOSC_LZ4HC, BLOSC_SNAPPY, BLOSC_ZLIB, BLOSC_ZSTD, BLOSC_LZ5,
      BLOSC_LZ5HC, BLOSC_BLOSCLZ_COMPNAME, BLOSC_LZ4_COMPNAME, BLOSC_LZ4HC_COMPNAME,
      BLOSC_SNAPPY_COMPNAME, BLOSC_ZLIB_COMPNAME, BLOSC_ZSTD_COMPNAME, BLOSC_LZ5_COMPNAME,
      BLOSC_LZ5HC_COMPNAME, hs]

/-- The two conversions at a code the build does not support: both return -1. -/
theorem compcode_compname_unsupported (supported : Nat → Bool) (c : Nat) (hc : c ≤ 7)
    (hs : supported c = false) :
    (blosc_compcode_to_compname supported (c : Nat)).1 = -1 ∧
    (compnames[c]?).map (blosc_compname_to_compcode supported) = some (-1) := by
  interval_cases c <;>
    simp [blosc_compcode_to_compname, blosc_compname_to_compcode, compnames,
      BLOSC_BLOSCLZ, BLOSC_LZ4, BLOSC_LZ4HC, BLOSC_SNAPPY, BLOSC_ZLIB, BLOSC_ZSTD, BLOSC_LZ5,
      BLOSC_LZ5HC, BLOSC_BLOSCLZ_COMPNAME, BLOSC_LZ4_COMPNAME, BLOSC_LZ4HC_COMPNAME,
      BLOSC_SNAPPY_COMPNAME, BLOSC_ZLIB_COMPNAME, BLOSC_ZSTD_COMPNAME, BLOSC_LZ5_COMPNAME,
      BLOSC_LZ5HC_COMPNAME, hs]

/-- C6, as the code has it: the eight compressor codes are 0..7 in the order
BloscLZ, LZ4, LZ4HC, Snappy, Zlib, Zstd, LZ5, LZ5HC, the eight names are pairwise
distinct, and `blosc_compcode_to_compname` gives code `c` the `c`-th name in
every build; for every code 0..7 that the build supports the two conversions are
inverse to each other (code to name to code, and name to code to name), and for
a code the build does not support both conversions return -1. -/
theorem compcode_compname_bijection (supported : Nat → Bool) :
    compcodes = [0, 1, 2, 3, 4, 5, 6, 7] ∧
    compnames = ["blosclz", "lz4", "lz4hc", "snappy", "zlib", "zstd", "lz5", "lz5hc"] ∧
    compcodes.Nodup ∧ compnames.Nodup ∧
    (∀ c ≤ 7, (blosc_compcode_to_compname supported (c : Nat)).2 = compnames[c]?) ∧
    (∀ c ≤ 7, supported c = true →
      (blosc_compcode_to_compname supported (c : Nat)).1 = (c : Nat) ∧
      (compnames[c]?).map (blosc_compname_to_compcode supported) = some ((c : Nat) : Int) ∧
      (compnames[c]?).map (fun name => blosc_compcode_to_compname supported
          (blosc_compname_to_compcode supported name))
        = some (((c : Nat) : Int), compnames[c]?)) ∧
    (∀ c ≤ 7, supported c = false →
      (blosc_compcode_to_compname supported (c : Nat)).1 = -1 ∧
      (compnames[c]?).map (blosc_compname_to_compcode supported) = some (-1)) := by
  refine ⟨rfl, rfl, by decide, by decide, ?_, ?_, ?_⟩
  · intro c hc
    interval_cases c <;> rfl
  · intro c hc hs
    exact compcode_compname_supported supported c hc hs
  · intro c hc hs
    exact compcode_compname_unsupported supported c hc hs

/-- Witness of C6: in a build with all eight compressors the code of Snappy goes to
"snappy" and back, and "snappy" goes to 3 and back. -/
theorem compcode_compname_bijection_witness :
    blosc_compcode_to_compname build_all 3 = (3, some "snappy") ∧
    blosc_compname_to_compcode build_all "snappy" = 3 ∧
    (∀ c ≤ 7, (compnames[c]?).map (blosc_compname_to_compcode build_all)
      = some ((c : Nat) : Int)) :=
  ⟨by decide, by decide,
    fun c hc => ((compcode_compname_bijection build_all).2.2.2.2.2.1 c hc rfl).2.1⟩

/-- Counterexample to C6 as stated: in a build without Snappy the code 3 is still
given the name "snappy", but `blosc_compcode_to_compname` returns -1 for it and
`blosc_compname_to_compcode` returns -1 for "snappy", so the round trip does not
hold for every code 0..7 nor for each of the eight names. -/
theorem compcode_compname_roundtrip_without_snappy :
    blosc_compcode_to_compname build_without_snappy 3 = (-1, some "snappy") ∧
    blosc_compname_to_compcode build_without_snappy "snappy" = -1 ∧
    ¬ (∀ c ≤ 7, (compnames[c]?).map (blosc_compname_to_compcode build_without_snappy)
      = some ((c : Nat) : Int)) ∧
    ¬ (∀ name ∈ compnames,
      (blosc_compcode_to_compname build_without_snappy
        (blosc_compname_to_compcode build_without_snappy name)).2 = some name) := by
  refine ⟨by decide, by decide, ?_, ?_⟩
  · intro h
    exact absurd (h 3 (by decide)) (by decide)
  · intro h
    exact absurd (h "snappy" (by decide)) (by decide)

/-- C7. The `*_FORMAT` code of every compressor 0..7 is the `*_LIB` code of its
library, and two distinct compressors have the same format code exactly when
they are LZ4 and LZ4HC or LZ5 and LZ5HC. -/
theorem format_is_library_code :
    (∀ c ≤ 7, (compcode_to_format c).isSome = true ∧
      compcode_to_format c = compcode_to_lib c) ∧
    (∀ c ≤ 7, ∀ d ≤ 7, c ≠ d →
      (compcode_to_format c = compcode_to_format d ↔
        ((c = BLOSC_LZ4 ∧ d = BLOSC_LZ4HC) ∨ (c = BLOSC_LZ4HC ∧ d = BLOSC_LZ4) ∨
         (c = BLOSC_LZ5 ∧ d = BLOSC_LZ5HC) ∨ (c = BLOSC_LZ5HC ∧ d = BLOSC_LZ5)))) := by
  refine ⟨by decide, ?_⟩
  intro c hc d hd hne
  interval_cases c <;> interval_cases d <;> first | exact absurd rfl hne | decide

/-- C8. The four flag masks are `2^0 .. 2^3`, pairwise disjoint; for every flags
value the test `flags & mask` reads exactly the bit of the mask, and setting or
clearing any other of the four bits leaves the test unchanged. -/
theorem flag_bits_independent :
    flag_masks = [(2 ^ 0, 0), (2 ^ 1, 1), (2 ^ 2, 2), (2 ^ 3, 3)] ∧
    (∀ p ∈ flag_masks, ∀ q ∈ flag_masks, p ≠ q → p.1 &&& q.1 = 0) ∧
    (∀ f : Nat, ∀ p ∈ flag_masks, flag_test f p.1 = f.testBit p.2) ∧
    (∀ f : Nat, ∀ p ∈ flag_masks, ∀ q ∈ flag_masks, p ≠ q →
      flag_test (flag_set f q.1) p.1 = flag_test f p.1 ∧
      flag_test (flag_clear f q.1) p.1 = flag_test f p.1) := by
  have hm : flag_masks = [(2 ^ 0, 0), (2 ^ 1, 1), (2 ^ 2, 2), (2 ^ 3, 3)] := by decide
  have hform : ∀ p ∈ flag_masks, p.1 = 2 ^ p.2 ∧ p.2 < 4 := by decide
  have hinj : ∀ p ∈ flag_masks, ∀ q ∈ flag_masks, p ≠ q → p.2 ≠ q.2 := by decide
  refine ⟨hm, by decide, ?_, ?_⟩
  · intro f p hp
    rw [(hform p hp).1]
    exact flag_test_two_pow f p.2
  · intro f p hp q hq hpq
    have hne := hinj p hp q hq hpq
    have hlt := (hform p hp).2
    rw [(hform p hp).1, (hform q hq).1]
    exact ⟨flag_test_set_other f p.2 q.2 hne, flag_test_clear_other f p.2 q.2 hne (by omega)⟩

/-- C9. The six shipped library codes are 0..5 and `BLOSC_SCHUNK_LIB` is 7, so
every library code, and every compressor format code, is below 8 and fits three
bits; no format code of a shipped compressor is the reserved `BLOSC_SCHUNK_LIB`. -/
theorem lib_codes_fit_three_bits :
    libcodes = [0, 1, 2, 3, 4, 5] ∧ BLOSC_SCHUNK_LIB = 7 ∧
    (∀ l ∈ BLOSC_SCHUNK_LIB :: libcodes, l < 8 ∧ l < 2 ^ 3) ∧
    (∀ f ∈ formatcodes, f ∈ libcodes ∧ f < 8 ∧ f ≠ BLOSC_SCHUNK_LIB) ∧
    (∀ c ≤ 7, ∃ f ∈ formatcodes, compcode_to_format c = some f) := by
  refine ⟨rfl, rfl, by decide, by decide, by decide⟩

/-- C10. With 8-byte pointers and natural alignment the fields of `schunk_header`
(4 `uint8`, 4 `uint16`, 1 `uint32`, 3 `int64`, 7 pointers) lie at offsets that are
multiples of their sizes, with no padding between or after them, and their sizes
sum to `BLOSC_HEADER_PACKED_LENGTH` = 96, the `sizeof` of the struct. -/
theorem schunk_header_is_packed_length :
    schunk_header_types =
      List.replicate 4 .uint8 ++ List.replicate 4 .uint16 ++ [.uint32]
        ++ List.replicate 3 .int64 ++ List.replicate 7 .pointer ∧
    (structOffsets 8 schunk_header_types 0).1 = packedOffsets 8 schunk_header_types 0 ∧
    (∀ p ∈ List.zip (structOffsets 8 schunk_header_types 0).1 schunk_header_types,
      p.1 % p.2.sizeof 8 = 0) ∧
    structSizeof 8 schunk_header_types = (structOffsets 8 schunk_header_types 0).2 ∧
    (schunk_header_types.map (CType.sizeof 8)).sum = BLOSC_HEADER_PACKED_LENGTH ∧
    structSizeof 8 schunk_header_types = BLOSC_HEADER_PACKED_LENGTH ∧
    BLOSC_HEADER_PACKED_LENGTH = 96 := by
  refine ⟨by decide, by decide, by decide, by decide, by decide, by decide, rfl⟩

/-- Reads inside a common prefix agree. -/
theorem getD_eq_of_take_eq {buf1 buf2 : List Nat} {n : Nat}
    (h : buf1.take n = buf2.take n) (i : Nat) (hi : i < n) :
    buf1.getD i 0 = buf2.getD i 0 := by
  have e1 : buf1[i]? = (buf1.take n)[i]? := (List.getElem?_take_of_lt hi).symm
  have e2 : buf2[i]? = (buf2.take n)[i]? := (List.getElem?_take_of_lt hi).symm
  rw [List.getD_eq_getElem?_getD, List.getD_eq_getElem?_getD, e1, e2, h]

/-- The `uint32` read at `off` depends only on a prefix that holds the four bytes. -/
theorem read_uint32_le_eq_of_take_eq {buf1 buf2 : List Nat} {n : Nat}
    (h : buf1.take n = buf2.take n) (h1 : n ≤ buf1.length) (h2 : n ≤ buf2.length)
    (off : Nat) (hoff : off + 4 ≤ n) : read_uint32_le buf1 off = read_uint32_le buf2 off := by
  unfold read_uint32_le
  rw [if_pos (by omega), if_pos (by omega),
    getD_eq_of_take_eq h off (by omega), getD_eq_of_take_eq h (off + 1) (by omega),
    getD_eq_of_take_eq h (off + 2) (by omega), getD_eq_of_take_eq h (off + 3) (by omega)]

/-- A read at `off + i` is a read at `i` past the first `off` bytes. -/
theorem getD_add_eq_drop (buf : List Nat) (off i : Nat) :
    buf.getD (off + i) 0 = (buf.drop off).getD i 0 := by
  rw [List.getD_eq_getElem?_getD, List.getD_eq_getElem?_getD, List.getElem?_drop]

/-- A list of at least four elements starts with four elements. -/
theorem exists_four_of_le (l : List Nat) (h : 4 ≤ l.length) :
    ∃ b0 b1 b2 b3 rest, l = b0 :: b1 :: b2 :: b3 :: rest := by
  match l, h with
  | b0 :: b1 :: b2 :: b3 :: rest, _ => exact ⟨b0, b1, b2, b3, rest, rfl⟩

/-- The read of four bytes at `off` is the little-endian value of these bytes. -/
theorem read_uint32_le_eq_ofDigits (buf : List Nat) (hb : ∀ b ∈ buf, b < 256) (off : Nat)
    (hoff : off + 4 ≤ buf.length) :
    read_uint32_le buf off = some (Nat.ofDigits 256 ((buf.drop off).take 4)) := by
  unfold read_uint32_le
  rw [if_pos hoff]
  obtain ⟨b0, b1, b2, b3, rest, hd⟩ := exists_four_of_le (buf.drop off) (by simp; omega)
  have hmem : ∀ b ∈ [b0, b1, b2, b3], b < 256 := by
    intro b hbm
    apply hb
    apply List.mem_of_mem_drop (n := off)
    rw [hd]
    simp at hbm ⊢
    tauto
  have h0 := getD_add_eq_drop buf off 0
  rw [Nat.add_zero] at h0
  rw [h0, getD_add_eq_drop buf off 1, getD_add_eq_drop buf off 2, getD_add_eq_drop buf off 3, hd]
  have e0 := hmem b0 (by simp)
  have e1 := hmem b1 (by simp)
  have e2 := hmem b2 (by simp)
  have e3 := hmem b3 (by simp)
  simp only [List.getD_cons_zero, List.getD_cons_succ, List.take_succ_cons, List.take_zero,
    Nat.ofDigits_cons, Nat.ofDigits_nil, Nat.mod_eq_of_lt e0, Nat.mod_eq_of_lt e1,
    Nat.mod_eq_of_lt e2, Nat.mod_eq_of_lt e3]
  congr 1
  omega

/-- The header reader recovers the three sizes from the bytes the header writer
emits, whatever follows the header. -/
theorem cbuffer_sizes_header_bytes (version versionlz flags typesize nbytes blocksize
    cbytes : Nat) (rest : List Nat) (hn : nbytes < 2 ^ 32) (hb : blocksize < 2 ^ 32)
    (hc : cbytes < 2 ^ 32) :
    blosc_cbuffer_sizes
        (header_bytes version versionlz flags typesize nbytes blocksize cbytes ++ rest)
      = some (nbytes, cbytes, blocksize) := by
  simp only [blosc_cbuffer_sizes, header_bytes, uint32_le_bytes, read_uint32_le, List.length_append,
    List.length_cons, List.length_nil, List.cons_append, List.nil_append, List.getD_cons_succ,
    List.getD_cons_zero]
  rw [if_pos (by omega), if_pos (by omega), if_pos (by omega)]
  simp only [Nat.mod_mod]
  congr 1
  refine Prod.ext ?_ (Prod.ext ?_ ?_) <;> simp only <;> omega

/-- C4. The seven header fields (four of one byte, then `nbytes`, `blocksize`,
`cbytes` of four bytes at offsets 4, 8, 12) fill `BLOSC_MIN_HEADER_LENGTH` = 16
bytes; on a buffer of at least 16 bytes `blosc_cbuffer_sizes` returns the
little-endian values of the bytes at offsets 4, 8 and 12, and two such buffers
with the same first 16 bytes give the same `(nbytes, cbytes, blocksize)`. -/
theorem cbuffer_sizes_needs_only_header (buf1 buf2 : List Nat)
    (hbytes : ∀ b ∈ buf1, b < 256)
    (h1 : BLOSC_MIN_HEADER_LENGTH ≤ buf1.length) (h2 : BLOSC_MIN_HEADER_LENGTH ≤ buf2.length)
    (h : buf1.take BLOSC_MIN_HEADER_LENGTH = buf2.take BLOSC_MIN_HEADER_LENGTH) :
    BLOSC_MIN_HEADER_LENGTH = 16 ∧
    (header_fields.map Prod.snd).sum = BLOSC_MIN_HEADER_LENGTH ∧
    header_offsets header_fields 0 =
      [("version", 0), ("versionlz", 1), ("flags", 2), ("typesize", 3),
       ("nbytes", 4), ("blocksize", 8), ("cbytes", 12)] ∧
    blosc_cbuffer_sizes buf1 =
      some (Nat.ofDigits 256 ((buf1.drop 4).take 4), Nat.ofDigits 256 ((buf1.drop 12).take 4),
        Nat.ofDigits 256 ((buf1.drop 8).take 4)) ∧
    blosc_cbuffer_sizes buf2 = blosc_cbuffer_sizes buf1 := by
  have h16 : BLOSC_MIN_HEADER_LENGTH = 16 := rfl
  rw [h16] at h1 h2 h
  refine ⟨rfl, by decide, by decide, ?_, ?_⟩
  · unfold blosc_cbuffer_sizes
    rw [read_uint32_le_eq_ofDigits buf1 hbytes 4 (by omega), read_uint32_le_eq_ofDigits buf1 hbytes 8 (by omega),
      read_uint32_le_eq_ofDigits buf1 hbytes 12 (by omega)]
  · unfold blosc_cbuffer_sizes
    rw [read_uint32_le_eq_of_take_eq h h1 h2 4 (by omega), read_uint32_le_eq_of_take_eq h h1 h2 8 (by omega),
      read_uint32_le_eq_of_take_eq h h1 h2 12 (by omega)]

/-- Witness of C4: a 16-byte header and the same header followed by two bytes. -/
theorem cbuffer_sizes_needs_only_header_witness :
    blosc_cbuffer_sizes [2, 1, 1, 4, 0, 4, 0, 0, 0, 1, 0, 0, 44, 1, 0, 0]
      = some (1024, 300, 256) ∧
    blosc_cbuffer_sizes [2, 1, 1, 4, 0, 4, 0, 0, 0, 1, 0, 0, 44, 1, 0, 0, 7, 9]
      = blosc_cbuffer_sizes [2, 1, 1, 4, 0, 4, 0, 0, 0, 1, 0, 0, 44, 1, 0, 0] := by
  have key := cbuffer_sizes_needs_only_header
    [2, 1, 1, 4, 0, 4, 0, 0, 0, 1, 0, 0, 44, 1, 0, 0]
    [2, 1, 1, 4, 0, 4, 0, 0, 0, 1, 0, 0, 44, 1, 0, 0, 7, 9]
    (by decide) (by decide) (by decide) (by decide)
  exact ⟨by decide, key.2.2.2.2⟩

/-- Length of a sequence of `a` rows of `b` entries. -/
theorem length_flatMap_range_map (f : Nat → Nat → Nat) (a b : Nat) :
    ((List.range a).flatMap (fun j => (List.range b).map (f j))).length = a * b := by
  induction a with
  | zero => simp
  | succ a ih =>
    rw [List.range_succ, List.flatMap_append, List.length_append, ih]
    simp [Nat.succ_mul]

/-- Entry `k` of a sequence of `a` rows of `b` entries is entry `k % b` of row `k / b`. -/
theorem getD_flatMap_range_map (f : Nat → Nat → Nat) (a b k : Nat) (hk : k < a * b) :
    ((List.range a).flatMap (fun j => (List.range b).map (f j))).getD k 0
      = f (k / b) (k % b) := by
  induction a with
  | zero => simp at hk
  | succ a ih =>
    have hb : 0 < b := by
      rcases Nat.eq_zero_or_pos b with h | h
      · subst h; simp at hk
      · exact h
    rw [List.range_succ, List.flatMap_append]
    by_cases hlt : k < a * b
    · rw [List.getD_append _ _ _ _ (by rw [length_flatMap_range_map]; exact hlt)]
      exact ih hlt
    · have hge : a * b ≤ k := Nat.le_of_not_lt hlt
      rw [List.getD_append_right _ _ _ _ (by rw [length_flatMap_range_map]; exact hge),
        length_flatMap_range_map]
      have hr : k - a * b < b := by
        rw [Nat.succ_mul] at hk
        omega
      have hdiv : k / b = a := by
        apply Nat.div_eq_of_lt_le
        · rw [Nat.mul_comm] at hge; rw [Nat.mul_comm]; exact hge
        · rw [Nat.succ_mul] at hk ⊢; exact hk
      have hmod : k % b = k - a * b := by
        have := Nat.div_add_mod k b
        rw [hdiv, Nat.mul_comm] at this
        omega
      rw [hdiv, hmod]
      simp [List.getD_eq_getElem?_getD, hr]
/-- Past a prefix of `m` entries, `pre ++ x.drop m` reads as `x`. -/
theorem getD_append_drop (pre x : List Nat) (m k : Nat) (hm : pre.length = m) (hk : m ≤ k) :
    (pre ++ x.drop m).getD k 0 = x.getD k 0 := by
  rw [List.getD_append_right _ _ _ _ (by omega), hm, List.getD_eq_getElem?_getD,
    List.getD_eq_getElem?_getD, List.getElem?_drop]
  congr 2
  omega

/-- Two lists of the same length with the same reads are equal. -/
theorem ext_getD {l₁ l₂ : List Nat} (hl : l₁.length = l₂.length)
    (h : ∀ k, k < l₁.length → l₁.getD k 0 = l₂.getD k 0) : l₁ = l₂ := by
  apply List.ext_getElem hl
  intro n h₁ h₂
  have := h n h₁
  rwa [List.getD_eq_getElem _ _ h₁, List.getD_eq_getElem _ _ h₂] at this

/-- The forward shuffle keeps the length. -/
theorem length_shuffle (typesize : Nat) (x : List Nat) :
    (shuffle typesize x).length = x.length := by
  unfold shuffle
  simp only [List.length_append, length_flatMap_range_map, List.length_drop]
  have := Nat.div_mul_le_self x.length typesize
  rw [Nat.mul_comm typesize]
  omega

/-- The inverse shuffle keeps the length. -/
theorem length_unshuffle (typesize : Nat) (y : List Nat) :
    (unshuffle typesize y).length = y.length := by
  unfold unshuffle
  simp only [List.length_append, length_flatMap_range_map, List.length_drop]
  have := Nat.div_mul_le_self y.length typesize
  omega

/-- Reads of the forward shuffle: position `j * nelem + i` holds byte `j` of element
`i`, and the trailing bytes stay in place. -/
theorem getD_shuffle (typesize : Nat) (x : List Nat) (k : Nat) :
    (shuffle typesize x).getD k 0 =
      if k < x.length / typesize * typesize
      then x.getD (k % (x.length / typesize) * typesize + k / (x.length / typesize)) 0
      else x.getD k 0 := by
  unfold shuffle
  simp only
  split
  · next hk =>
    rw [List.getD_append _ _ _ _ (by
      rw [length_flatMap_range_map, Nat.mul_comm]; exact hk)]
    rw [getD_flatMap_range_map _ _ _ _ (by rw [Nat.mul_comm]; exact hk)]
  · next hk =>
    exact getD_append_drop _ _ _ _ (by rw [length_flatMap_range_map, Nat.mul_comm])
      (Nat.le_of_not_lt hk)

/-- Reads of the inverse shuffle: byte `j` of element `i` comes from position
`j * nelem + i`, and the trailing bytes stay in place. -/
theorem getD_unshuffle (typesize : Nat) (y : List Nat) (k : Nat) :
    (unshuffle typesize y).getD k 0 =
      if k < y.length / typesize * typesize
      then y.getD (k % typesize * (y.length / typesize) + k / typesize) 0
      else y.getD k 0 := by
  unfold unshuffle
  simp only
  split
  · next hk =>
    rw [List.getD_append _ _ _ _ (by rw [length_flatMap_range_map]; exact hk)]
    rw [getD_flatMap_range_map _ _ _ _ hk]
  · next hk =>
    exact getD_append_drop _ _ _ _ (by rw [length_flatMap_range_map]) (Nat.le_of_not_lt hk)

/-- Index arithmetic of the transpose: `(j * n + i) % n = i` and `(j * n + i) / n = j`
for `i < n`. -/
theorem transpose_index (n i j : Nat) (hi : i < n) :
    (j * n + i) % n = i ∧ (j * n + i) / n = j := by
  constructor
  · rw [Nat.mul_comm, Nat.mul_add_mod, Nat.mod_eq_of_lt hi]
  · rw [Nat.mul_comm, Nat.mul_add_div (by omega), Nat.div_eq_of_lt hi, Nat.add_zero]

/-- The inverse shuffle undoes the forward shuffle. -/
theorem unshuffle_shuffle (typesize : Nat) (x : List Nat) :
    unshuffle typesize (shuffle typesize x) = x := by
  apply ext_getD
  · rw [length_unshuffle, length_shuffle]
  · intro k _
    rw [getD_unshuffle, length_shuffle]
    split
    · next hk =>
      have hts : 0 < typesize := by
        rcases Nat.eq_zero_or_pos typesize with h | h
        · subst h; simp at hk
        · exact h
      have hj : k % typesize < typesize := Nat.mod_lt _ hts
      have hi : k / typesize < x.length / typesize := by
        rw [Nat.div_lt_iff_lt_mul hts]; exact hk
      have hlt : k % typesize * (x.length / typesize) + k / typesize
          < x.length / typesize * typesize := by
        calc k % typesize * (x.length / typesize) + k / typesize
            < k % typesize * (x.length / typesize) + x.length / typesize := by omega
          _ = (k % typesize + 1) * (x.length / typesize) := by ring
          _ ≤ typesize * (x.length / typesize) := Nat.mul_le_mul_right _ hj
          _ = x.length / typesize * typesize := Nat.mul_comm _ _
      rw [getD_shuffle, if_pos hlt]
      obtain ⟨h1, h2⟩ := transpose_index (x.length / typesize) (k / typesize) (k % typesize) hi
      rw [h1, h2]
      congr 1
      have := Nat.div_add_mod k typesize
      rw [Nat.mul_comm] at this
      exact this
    · next hk =>
      rw [getD_shuffle, if_neg hk]

/-- The forward shuffle undoes the inverse shuffle. -/
theorem shuffle_unshuffle (typesize : Nat) (y : List Nat) :
    shuffle typesize (unshuffle typesize y) = y := by
  apply ext_getD
  · rw [length_shuffle, length_unshuffle]
  · intro k _
    rw [getD_shuffle, length_unshuffle]
    split
    · next hk =>
      have hn : 0 < y.length / typesize := by
        rcases Nat.eq_zero_or_pos (y.length / typesize) with h | h
        · rw [h] at hk; simp at hk
        · exact h
      have hi : k % (y.length / typesize) < y.length / typesize := Nat.mod_lt _ hn
      have hj : k / (y.length / typesize) < typesize := by
        rw [Nat.div_lt_iff_lt_mul hn, Nat.mul_comm]; exact hk
      have hlt : k % (y.length / typesize) * typesize + k / (y.length / typesize)
          < y.length / typesize * typesize := by
        calc k % (y.length / typesize) * typesize + k / (y.length / typesize)
            < k % (y.length / typesize) * typesize + typesize := by omega
          _ = (k % (y.length / typesize) + 1) * typesize := by ring
          _ ≤ y.length / typesize * typesize := Nat.mul_le_mul_right _ hi
      rw [getD_unshuffle, if_pos hlt]
      obtain ⟨h1, h2⟩ := transpose_index typesize (k / (y.length / typesize))
        (k % (y.length / typesize)) hj
      rw [h1, h2]
      congr 1
      have := Nat.div_add_mod k (y.length / typesize)
      rw [Nat.mul_comm] at this
      exact this
    · next hk =>
      rw [getD_unshuffle, if_neg hk]

/-- C3. Byte-shuffle is a bijection: for every typesize from 1 to 255 and every byte
sequence `x` of any length (also one that is no multiple of the typesize), the
inverse shuffle of the forward shuffle is `x` and the output has the length of
`x`; the forward shuffle is the transpose (byte `j` of element `i` goes to
position `j * nelem + i`) and keeps the trailing `length % typesize` bytes in
place.  The forward shuffle of the inverse shuffle is the identity too. -/
theorem byte_shuffle_bijection (typesize : Nat) (x : List Nat)
    (_h1 : 1 ≤ typesize) (_h2 : typesize ≤ BLOSC_MAX_TYPESIZE) :
    unshuffle typesize (shuffle typesize x) = x ∧
    (shuffle typesize x).length = x.length ∧
    shuffle typesize (unshuffle typesize x) = x ∧
    (∀ i j, i < x.length / typesize → j < typesize →
      (shuffle typesize x).getD (j * (x.length / typesize) + i) 0
        = x.getD (i * typesize + j) 0) ∧
    (shuffle typesize x).drop (x.length / typesize * typesize)
      = x.drop (x.length / typesize * typesize) ∧
    (x.drop (x.length / typesize * typesize)).length = x.length % typesize := by
  refine ⟨unshuffle_shuffle typesize x, length_shuffle typesize x,
    shuffle_unshuffle typesize x, ?_, ?_, ?_⟩
  · intro i j hi hj
    have hlt : j * (x.length / typesize) + i < x.length / typesize * typesize := by
      calc j * (x.length / typesize) + i
          < j * (x.length / typesize) + x.length / typesize := by omega
        _ = (j + 1) * (x.length / typesize) := by ring
        _ ≤ typesize * (x.length / typesize) := Nat.mul_le_mul_right _ hj
        _ = x.length / typesize * typesize := Nat.mul_comm _ _
    obtain ⟨e1, e2⟩ := transpose_index (x.length / typesize) i j hi
    rw [getD_shuffle, if_pos hlt, e1, e2]
  · unfold shuffle
    exact List.drop_left' (by rw [length_flatMap_range_map, Nat.mul_comm])
  · rw [List.length_drop]
    have := Nat.div_add_mod x.length typesize
    rw [Nat.mul_comm] at this
    omega

/-- Witness of C3: seven bytes shuffled with typesize 2 (three elements and one
trailing byte). -/
theorem byte_shuffle_bijection_witness :
    shuffle 2 [1, 2, 3, 4, 5, 6, 7] = [1, 3, 5, 2, 4, 6, 7] ∧
    unshuffle 2 (shuffle 2 [1, 2, 3, 4, 5, 6, 7]) = [1, 2, 3, 4, 5, 6, 7] ∧
    (shuffle 2 [1, 2, 3, 4, 5, 6, 7]).length = 7 :=
  ⟨by decide,
    (byte_shuffle_bijection 2 [1, 2, 3, 4, 5, 6, 7] (by decide) (by decide)).1,
    (byte_shuffle_bijection 2 [1, 2, 3, 4, 5, 6, 7] (by decide) (by decide)).2.1⟩

/-- The mask of the three low bits is the remainder modulo 8. -/
theorem and_seven (n : Nat) : n &&& 7 = n % 8 := by
  have := Nat.and_pow_two_sub_one_eq_mod n 3
  simpa using this

/-- The packing of five filters, written out. -/
theorem encode_filters_five (a b c d e : Nat) :
    encode_filters [a, b, c, d, e] =
      (((((a % 256) % 2 ^ 16 + b % 256 * 8) % 2 ^ 16 + c % 256 * 64) % 2 ^ 16
        + d % 256 * 512) % 2 ^ 16 + e % 256 * 4096) % 2 ^ 16 := by
  simp [encode_filters, BLOSC_MAX_FILTERS, List.range_succ, Nat.shiftLeft_eq]

/-- The reading of the five filters, written out. -/
theorem decode_filters_eq (v : Nat) :
    decode_filters v = [v % 8, v / 8 % 8, v / 64 % 8, v / 512 % 8, v / 4096 % 8] := by
  simp [decode_filters, BLOSC_MAX_FILTERS, List.range_succ, Nat.shiftRight_eq_div_pow, and_seven]

/-- A list of `BLOSC_MAX_FILTERS` entries has five entries. -/
theorem exists_five_of_length (l : List Nat) (h : l.length = BLOSC_MAX_FILTERS) :
    ∃ a b c d e, l = [a, b, c, d, e] := by
  match l, h with
  | [a, b, c, d, e], _ => exact ⟨a, b, c, d, e, rfl⟩

/-- C11. A full filter pipeline fits the `filters` field of the super-chunk header:
the four filter codes are 0, 1, 2, 3, all below 8; `schunk_params.filters` holds
`BLOSC_MAX_FILTERS` = 5 `uint8` entries and `schunk_header.filters` is a `uint16`;
for every sequence of five codes below 8 the packing at 3 bits per filter is the
base-8 number with these digits, it is below `2^15`, hence below `2^16` and inside
the `uint16` field, and reading the field 3 bits at a time gives the five codes
back. -/
theorem filters_fit_schunk_header (filters : List Nat)
    (hlen : filters.length = BLOSC_MAX_FILTERS) (hcode : ∀ f ∈ filters, f < 8) :
    filter_codes = [0, 1, 2, 3] ∧ (∀ f ∈ filter_codes, f < 8) ∧
    BLOSC_MAX_FILTERS = 5 ∧
    schunk_params_fields.lookup "filters" = some (.uint8, BLOSC_MAX_FILTERS) ∧
    schunk_header_fields.lookup "filters" = some .uint16 ∧
    encode_filters filters = Nat.ofDigits 8 filters ∧
    encode_filters filters < 2 ^ (3 * BLOSC_MAX_FILTERS) ∧
    encode_filters filters < 2 ^ 16 ∧
    encode_filters filters < 2 ^ (8 * CType.sizeof 8 .uint16) ∧
    decode_filters (encode_filters filters) = filters := by
  obtain ⟨a, b, c, d, e, rfl⟩ := exists_five_of_length filters hlen
  have ha : a < 8 := hcode a (by simp)
  have hb : b < 8 := hcode b (by simp)
  have hc : c < 8 := hcode c (by simp)
  have hd : d < 8 := hcode d (by simp)
  have he : e < 8 := hcode e (by simp)
  have henc : encode_filters [a, b, c, d, e] = a + b * 8 + c * 64 + d * 512 + e * 4096 := by
    rw [encode_filters_five]
    omega
  have hmax : BLOSC_MAX_FILTERS = 5 := rfl
  have hsz : CType.sizeof 8 .uint16 = 2 := rfl
  refine ⟨by decide, by decide, rfl, by decide, by decide, ?_, ?_, ?_, ?_, ?_⟩
  · rw [henc]
    simp only [Nat.ofDigits_cons, Nat.ofDigits_nil]
    omega
  · rw [henc, hmax]
    omega
  · rw [henc]
    omega
  · rw [henc, hsz]
    omega
  · rw [henc, decode_filters_eq]
    have e1 : (a + b * 8 + c * 64 + d * 512 + e * 4096) % 8 = a := by omega
    have e2 : (a + b * 8 + c * 64 + d * 512 + e * 4096) / 8 % 8 = b := by omega
    have e3 : (a + b * 8 + c * 64 + d * 512 + e * 4096) / 64 % 8 = c := by omega
    have e4 : (a + b * 8 + c * 64 + d * 512 + e * 4096) / 512 % 8 = d := by omega
    have e5 : (a + b * 8 + c * 64 + d * 512 + e * 4096) / 4096 % 8 = e := by omega
    rw [e1, e2, e3, e4, e5]

/-- Witness of C11: the pipeline shuffle, delta, then three empty slots packs to
`1 + 3 * 8 = 25` and reads back. -/
theorem filters_fit_schunk_header_witness :
    encode_filters [BLOSC_SHUFFLE, BLOSC_DELTA, BLOSC_NOFILTER, BLOSC_NOFILTER, BLOSC_NOFILTER]
      = 25 ∧
    decode_filters (encode_filters
      [BLOSC_SHUFFLE, BLOSC_DELTA, BLOSC_NOFILTER, BLOSC_NOFILTER, BLOSC_NOFILTER])
      = [BLOSC_SHUFFLE, BLOSC_DELTA, BLOSC_NOFILTER, BLOSC_NOFILTER, BLOSC_NOFILTER] :=
  ⟨by decide,
    (filters_fit_schunk_header
      [BLOSC_SHUFFLE, BLOSC_DELTA, BLOSC_NOFILTER, BLOSC_NOFILTER, BLOSC_NOFILTER]
      (by decide) (by decide)).2.2.2.2.2.2.2.2.2⟩

end Blosc
